import Mathlib

/-!
# kubectl-secretdata: namespace selection, secret decoding, filtering, aggregation

A shallow embedding of `options.go` (`Options.Complete`, `nTrue`, `Options.Run`,
`getSecretData`, `Options.secretInfos`, `Options.match`) and of the command
builder of `find.go`, `kubectl.go` and `main.go` (`secretCommands`,
`getAllNamespaces`, `kubectlGetSecret`, `toKubectlOptions`), together with the
library calls they rely on (`encoding/base64`, `strings.Split`, `fmt.Errorf`).

Conventions of the embedding:

* a Go `string` is an immutable byte sequence: `GoString = List Byte`;
* a Go `map[string]T` is an association list with distinct keys, listed in the
  order in which a `range` loop over it visits the entries in the run at hand
  (Go leaves that order unspecified, so statements quantify over all lists);
* a nil map is `none`, a non-nil map is `some m`, where the program can tell
  the two apart;
* a function that can panic returns `Go α`, which is either `ret a` or `panic`;
* an `error` value is a `GoError`, tagged by the dynamic type that carries it,
  and `GoError.Error` is its message.
-/

namespace SecretData

/-! ## Strings and errors -/

/-- One byte. -/
abbrev Byte := Fin 256

/-- A Go string: a sequence of bytes. -/
abbrev GoString := List Byte

/-- The bytes of an ASCII string literal of the source. -/
def lit (s : String) : GoString := s.toList.map (fun c => Fin.ofNat c.toNat)

/-- Decimal rendering of a non-negative integer (`strconv.FormatInt(n, 10)`). -/
def Itoa (n : Nat) : GoString := (Nat.toDigits 10 n).map (fun c => Fin.ofNat c.toNat)

/-- Outcome of a Go call that either returns or panics. -/
inductive Go (α : Type) where
  | ret (a : α)
  | panic
  deriving DecidableEq, Repr

/-- Go `error` values, by the dynamic type behind the interface. -/
inductive GoError where
  /-- Built by `fmt.Errorf` without `%w` (an `*errors.errorString`). -/
  | errorString (s : GoString)
  /-- Built by `fmt.Errorf` with `%w`: the formatted message and the wrapped error. -/
  | wrapError (msg : GoString) (err : GoError)
  /-- The `base64.CorruptInputError(n)` of `encoding/base64`. -/
  | CorruptInputError (n : Nat)
  /-- An error value handed over by a collaborator (client factory, `regexp`, a marshaller). -/
  | foreign (msg : GoString)
  deriving DecidableEq, Repr

/-- The `Error()` method. -/
def GoError.Error : GoError → GoString
  | .errorString s => s
  | .wrapError msg _ => msg
  | .CorruptInputError n => lit "illegal base64 data at input byte " ++ Itoa n
  | .foreign msg => msg

/-! ## Go maps -/

/-- A Go `map[string]α`, in the iteration order of the run. -/
abbrev GoMap (α : Type) := List (GoString × α)

/-- The lookup `m[k]` with the comma-ok result folded into `Option`. -/
def GoMap.get {α : Type} : GoMap α → GoString → Option α
  | [], _ => none
  | (k', v) :: m, k => if k' = k then some v else GoMap.get m k

/-- The assignment `m[k] = v`. -/
def GoMap.set {α : Type} : GoMap α → GoString → α → GoMap α
  | [], k, v => [(k, v)]
  | (k', v') :: m, k, v => if k' = k then (k, v) :: m else (k', v') :: GoMap.set m k v

/-! ## `encoding/base64`, `StdEncoding` -/

/-- The alphabet of `base64.StdEncoding`. -/
def encodeStd : GoString :=
  lit "ABCDEFGHIJKLMNOPQRSTUVWXYZabcdefghijklmnopqrstuvwxyz0123456789+/"

/-- The table `enc.encode[n]`, indexed by a sextet. -/
def encodeChar (n : Nat) : Byte := encodeStd.getD n 0

/-- The table `enc.decodeMap[c]`; `none` stands for the marker `0xff`. -/
def decodeMap (c : Byte) : Option Nat :=
  if encodeStd.indexOf c < 64 then some (encodeStd.indexOf c) else none

/-- The padding character `=`. -/
def padChar : Byte := 61

/-- The test `in == '\n' || in == '\r'`. -/
def isNewline (c : Byte) : Bool := c = 10 || c = 13

/-- The method `StdEncoding.EncodeToString`: three bytes give four characters, a final
group of one or two bytes is padded with `=`. The 24-bit value
`b0<<16 | b1<<8 | b2` is written with `+` and `*`, its sextets `val>>k & 0x3F`
with `/` and `%`. -/
def EncodeToString : List Byte → GoString
  | b0 :: b1 :: b2 :: rest =>
      let val := b0.val * 65536 + b1.val * 256 + b2.val
      encodeChar (val / 262144 % 64) :: encodeChar (val / 4096 % 64) ::
        encodeChar (val / 64 % 64) :: encodeChar (val % 64) :: EncodeToString rest
  | [b0, b1] =>
      let val := b0.val * 65536 + b1.val * 256
      [encodeChar (val / 262144 % 64), encodeChar (val / 4096 % 64),
        encodeChar (val / 64 % 64), padChar]
  | [b0] =>
      let val := b0.val * 65536
      [encodeChar (val / 262144 % 64), encodeChar (val / 4096 % 64), padChar, padChar]
  | [] => []

/-- The end of `decodeQuantum`: the `dlen - 1` bytes of a quantum that holds
`dlen = dbuf.length` sextets (`val := dbuf[0]<<18 | dbuf[1]<<12 | dbuf[2]<<6 | dbuf[3]`,
missing sextets are zero; the encoding is not strict, so spare bits are dropped). -/
def quantumBytes (dbuf : List Nat) : List Byte :=
  let val := dbuf.getD 0 0 * 262144 + dbuf.getD 1 0 * 4096 + dbuf.getD 2 0 * 64 + dbuf.getD 3 0
  ([val / 65536 % 256, val / 256 % 256, val % 256].map Fin.ofNat).take (dbuf.length - 1)

/-- The loop `for si < len(src) && (src[si] == '\n' || src[si] == '\r') { si++ }`,
on the unread input and the index `si`. -/
def skipNewlines : List Byte → Nat → List Byte × Nat
  | [], si => ([], si)
  | c :: rest, si => if isNewline c then skipNewlines rest (si + 1) else (c :: rest, si)

/-- The tail of the padding case of `decodeQuantum`: skip newlines, flag
trailing garbage with `CorruptInputError(si)`, emit the quantum. -/
def finishPadding (rest : List Byte) (si : Nat) (dbuf : List Nat) (out : List Byte) :
    List Byte × Option GoError :=
  match skipNewlines rest si with
  | ([], _) => (out ++ quantumBytes dbuf, none)
  | (_ :: _, si') => (out ++ quantumBytes dbuf, some (.CorruptInputError si'))

/-- The method `Decode` as the repetition of `decodeQuantum` over the unread input:
`len` is `len(src)`, `si` the read index, `dbuf` the sextets of the current
quantum (`j = dbuf.length`), `out` the bytes written so far. The result is
`(dst[:n], err)`. The 8- and 4-byte fast paths of `Decode` give the same
result as `decodeQuantum` on the same input and are not modelled apart. -/
def decodeLoop (len : Nat) : List Byte → Nat → List Nat → List Byte → List Byte × Option GoError
  | [], si, dbuf, out =>
      if dbuf.length = 0 then (out, none)
      else (out, some (.CorruptInputError (si - dbuf.length)))
  | c :: rest, si, dbuf, out =>
      match decodeMap c with
      | some v =>
          if (dbuf ++ [v]).length = 4 then decodeLoop len rest (si + 1) [] (out ++ quantumBytes (dbuf ++ [v]))
          else decodeLoop len rest (si + 1) (dbuf ++ [v]) out
      | none =>
          if isNewline c then decodeLoop len rest (si + 1) dbuf out
          else if c ≠ padChar then (out, some (.CorruptInputError ((si + 1) - 1)))
          else if dbuf.length < 2 then (out, some (.CorruptInputError ((si + 1) - 1)))
          else if dbuf.length = 2 then
            match skipNewlines rest (si + 1) with
            | ([], _) => (out, some (.CorruptInputError len))
            | (c2 :: rest2, si2) =>
                if c2 ≠ padChar then (out, some (.CorruptInputError (si2 - 1)))
                else finishPadding rest2 (si2 + 1) dbuf out
          else finishPadding rest (si + 1) dbuf out

/-- The method `StdEncoding.DecodeString`: the decoded bytes `dbuf[:n]` and the error. -/
def DecodeString (s : GoString) : List Byte × Option GoError :=
  decodeLoop s.length s 0 [] []

/-! ## `strings.Split` -/

/-- The separator `,`. -/
def comma : Byte := 44

/-- The call `strings.Split(s, sep)` for a separator of one byte: the pieces of `s`
between the occurrences of `sep`; a string without `sep` gives the one piece `s`. -/
def Split (sep : Byte) : GoString → List GoString
  | [] => [[]]
  | c :: rest =>
      if c = sep then [] :: Split sep rest
      else match Split sep rest with
        | [] => [[c]]
        | piece :: pieces => (c :: piece) :: pieces

/-! ## Kubernetes objects -/

/-- A value of type `interface{}` inside an unstructured object. -/
inductive Value where
  /-- The nil interface (JSON `null`). -/
  | null
  /-- A Go `string`. -/
  | string (s : GoString)
  /-- A `map[string]interface{}`. -/
  | object (m : List (GoString × Value))
  /-- Any other dynamic type (`bool`, `int64`, `float64`, `[]interface{}`). -/
  | other

/-- The dynamic type behind a `runtime.Object`. -/
inductive RuntimeObject where
  /-- A `*v1.Secret`, with its field `Data map[string][]byte` (nil or a map). -/
  | Secret (Data : Option (GoMap (List Byte)))
  /-- An `*unstructured.Unstructured`, with its field `Object map[string]interface{}`. -/
  | Unstructured (Object : GoMap Value)
  /-- Any other dynamic type; `typeName` is what `%T` prints for it, e.g. `*v1.Pod`. -/
  | other (typeName : GoString)

/-- The fields of a `*resource.Info` that `Run` reads. -/
structure Info where
  Namespace : GoString
  Name : GoString
  Object : RuntimeObject

/-- What `secretInfos` asks the resource builder for. -/
structure Query where
  NamespaceParam : GoString
  AllNamespaces : Bool
  LabelSelectorParam : GoString
  ResourceTypeOrNameArgs : List GoString

/-- The `cmdutil.Factory` as far as the program uses it. -/
structure Factory where
  /-- The three results of `f.ToRawKubeConfigLoader().Namespace()`; an error is
  given by its message. -/
  Namespace : GoString × Bool × Option GoString
  /-- The outcome of `builder...Do()` followed by `r.Err()` and `r.Infos()`; an
  error is given by its message. -/
  Do : Query → Except GoString (List Info)

/-- A compiled `*regexp.Regexp`, given by its method `MatchString`. -/
abbrev Regexp := GoString → Bool

/-- The value `Run` builds: `map[string]map[string]map[string]string`; the
innermost map may be nil. -/
abbrev SecretDataMap := GoMap (GoMap (Option (GoMap GoString)))

/-- Library calls whose results the program takes as they come; an error is
given by its message. -/
structure Lib where
  /-- The call `regexp.Compile`. -/
  Compile : GoString → Except GoString Regexp
  /-- The call `json.MarshalIndent(secretdata, "", "    ")`. -/
  MarshalIndent : SecretDataMap → Except GoString GoString
  /-- The call `yaml.Marshal(secretdata)`. -/
  Marshal : SecretDataMap → Except GoString GoString

/-! ## `options.go` -/

/-- The struct `Options` without its `IOStreams`; what `Run` writes to `o.Out`
is part of the result of `Run`. `CompliedRegex` is a pointer: `none` is nil. -/
structure Options where
  Namespace : GoString
  AllNamespaces : Bool
  MultiNamespacesString : GoString
  Output : GoString
  LabelSelector : GoString
  Regex : GoString
  SecretName : GoString
  CompliedRegex : Option Regexp
  MultiNamespaces : List GoString

/-- The constructor `NewOptions`: output `yaml`, a regular expression that matches every word. -/
def NewOptions : Options :=
  { Namespace := [], AllNamespaces := false, MultiNamespacesString := [],
    Output := lit "yaml", LabelSelector := [], Regex := lit ".*",
    SecretName := [], CompliedRegex := none, MultiNamespaces := [] }

/-- The function `nTrue`: the number of `true` among the arguments. -/
def nTrue (bools : List Bool) : Nat :=
  bools.foldl (fun n b => if b then n + 1 else n) 0

/-- The error of case 0 of the switch in `Complete`. -/
def errSelect : GoError := .errorString (lit "must select at least a namespace")

/-- The error of cases 2 and 3 of the switch in `Complete`. -/
def errChoose : GoError :=
  .errorString (lit "must choose one option to use for selecting namespace")

/-- The error of `Complete` for an `Output` other than `json` and `yaml`. -/
def errOutput (output : GoString) : GoError :=
  .errorString (output ++ lit " is invalid: --output must be \"yaml\", or \"json\"")

/-- The method `Options.Complete`: the options after the call and the error it returns.
A guarded assignment `if c { o.X = v }` is the update of the field `X` to
`if c then v else o.X`. -/
def Options.Complete (lib : Lib) (f : Factory) (args : List GoString) (o : Options) :
    Options × Option GoError :=
  let o := { o with SecretName := if 0 < args.length then args.headD [] else o.SecretName }
  let o := { o with Namespace := f.Namespace.1 }
  match f.Namespace.2.2 with
  | some err => (o, some (.foreign err))
  | none =>
    let o := { o with Namespace := if !f.Namespace.2.1 then [] else o.Namespace }
    let n := nTrue [decide (o.Namespace ≠ []), o.AllNamespaces,
      decide (o.MultiNamespacesString ≠ [])]
    if n = 0 then (o, some errSelect)
    else if n = 2 ∨ n = 3 then (o, some errChoose)
    else
      let o := { o with AllNamespaces := if o.Namespace ≠ [] then false else o.AllNamespaces }
      let o := { o with MultiNamespaces :=
        if o.MultiNamespacesString ≠ [] then Split comma o.MultiNamespacesString
        else o.MultiNamespaces }
      let o := { o with
        Namespace := if o.MultiNamespaces.length = 1 then o.MultiNamespaces.headD [] else o.Namespace
        AllNamespaces := if o.MultiNamespaces.length = 1 then false else o.AllNamespaces }
      let o := { o with AllNamespaces := if 1 < o.MultiNamespaces.length then true else o.AllNamespaces }
      if o.Output ≠ lit "json" ∧ o.Output ≠ lit "yaml" then (o, some (errOutput o.Output))
      else
        match lib.Compile o.Regex with
        | .error err => ({ o with CompliedRegex := none }, some (.foreign err))
        | .ok re => ({ o with CompliedRegex := some re }, none)

/-- The tail of `Complete` once the namespace switch has let the call
through: the error of the `Output` check or of `regexp.Compile`, or nil. -/
def afterNamespaceCheck (lib : Lib) (o : Options) : Option GoError :=
  if o.Output ≠ lit "json" ∧ o.Output ≠ lit "yaml" then some (errOutput o.Output)
  else match lib.Compile o.Regex with
    | .error err => some (.foreign err)
    | .ok _ => none

/-- The loop of the `*unstructured.Unstructured` case of `getSecretData`, over
the entries of `m` still to visit, with the map `data` built so far. The
assertion `v.(string)` panics on a value that is not a string. -/
def getSecretData.loop :
    List (GoString × Value) → GoMap GoString → Go (Option (GoMap GoString) × Option GoError)
  | [], data => .ret (some data, none)
  | (k, .string s) :: rest, data =>
      match DecodeString s with
      | (_, some err) =>
          .ret (none, some (.wrapError (lit "decode " ++ s ++ lit ": " ++ err.Error) err))
      | (b, none) => getSecretData.loop rest (data.set k b)
  | (_, _) :: _, _ => .panic

/-- The function `getSecretData`: the two results `(map[string]string, error)`. The inner
assertion `obj.(*unstructured.Unstructured)` of the second case cannot fail
there. -/
def getSecretData : RuntimeObject → Go (Option (GoMap GoString) × Option GoError)
  | .Secret Data =>
      .ret (some ((Data.getD []).foldl (fun d kv => d.set kv.1 kv.2) []), none)
  | .Unstructured Object =>
      match Object.get (lit "data") with
      | some (.object m) => getSecretData.loop m []
      | _ => .ret (none, none)
  | .other typeName => .ret (none, some (.errorString (typeName ++ lit " is unexpected type")))

/-- The method `Options.secretInfos`: the builder call with the parameters taken from `o`. -/
def Options.secretInfos (f : Factory) (o : Options) : Except GoString (List Info) :=
  f.Do
    { NamespaceParam := o.Namespace, AllNamespaces := o.AllNamespaces,
      LabelSelectorParam := o.LabelSelector,
      ResourceTypeOrNameArgs :=
        if o.SecretName = [] then [lit "secret"] else [lit "secret", o.SecretName] }

/-- The method `Options.match`: calling `MatchString` on a nil `CompliedRegex` panics. -/
def Options.match_ (o : Options) (ns secretName : GoString) : Go Bool :=
  match o.CompliedRegex with
  | none => .panic
  | some re =>
    if !re secretName then .ret false
    else if o.Namespace ≠ [] then .ret (decide (o.Namespace = ns))
    else if o.MultiNamespaces.any (fun n => decide (n = ns)) then .ret true
    else .ret o.AllNamespaces

/-- The error of `Run` for an empty result. -/
def errNotFound : GoError := .errorString (lit "No secrets found")

/-- The `for _, info := range infos` loop of `Run`, over the infos still to
visit, with the map `secretdata` built so far: the map at the end and the
error that makes `Run` return from inside the loop. -/
def Options.Run.loop (o : Options) :
    List Info → SecretDataMap → Go (SecretDataMap × Option GoError)
  | [], secretdata => .ret (secretdata, none)
  | info :: infos, secretdata =>
      match o.match_ info.Namespace info.Name with
      | .panic => .panic
      | .ret false => Options.Run.loop o infos secretdata
      | .ret true =>
          match getSecretData info.Object with
          | .panic => .panic
          | .ret (_, some err) => .ret (secretdata, some err)
          | .ret (data, none) =>
              let secretdata := match secretdata.get info.Namespace with
                | some _ => secretdata
                | none => secretdata.set info.Namespace []
              match secretdata.get info.Namespace with
              | none => .panic
              | some inner =>
                  Options.Run.loop o infos
                    (secretdata.set info.Namespace (inner.set info.Name data))

/-- The method `Options.Run`: the bytes written to `o.Out` and the error returned. -/
def Options.Run (lib : Lib) (f : Factory) (o : Options) : Go (GoString × Option GoError) :=
  match o.secretInfos f with
  | .error err => .ret ([], some (.foreign err))
  | .ok infos =>
    match Options.Run.loop o infos [] with
    | .panic => .panic
    | .ret (_, some err) => .ret ([], some err)
    | .ret (secretdata, none) =>
      if secretdata.length = 0 then .ret ([], some errNotFound)
      else if o.Output = lit "json" then
        match lib.MarshalIndent secretdata with
        | .error err => .ret ([], some (.foreign err))
        | .ok v => .ret (v ++ lit "\n", none)
      else if o.Output = lit "yaml" then
        match lib.Marshal secretdata with
        | .error err => .ret ([], some (.foreign err))
        | .ok v => .ret (v ++ lit "\n", none)
      else .ret ([], none)

/-- The entry `secretdata[ns][name]`, if both keys are present. -/
def entry (secretdata : SecretDataMap) (ns name : GoString) : Option (Option (GoMap GoString)) :=
  (secretdata.get ns).bind fun inner => inner.get name

/-- The map after the three statements by which the loop of `Run` stores a
decoded secret: the inner map of `ns`, created if absent, with `data` at `name`. -/
def insertSecret (secretdata : SecretDataMap) (ns name : GoString)
    (data : Option (GoMap GoString)) : SecretDataMap :=
  secretdata.set ns (((secretdata.get ns).getD []).set name data)

/-! ## Fixtures for closed examples, after `options_test.go` -/

/-- A stand-in for the library calls: every pattern compiles to one that
matches every name, the marshallers print a fixed text. -/
def stubLib : Lib :=
  ⟨fun _ => .ok (fun _ => true), fun _ => .ok (lit "<json>"), fun _ => .ok (lit "<yaml>")⟩

/-- A factory whose builder returns `infos` for every query; the namespace of
the environment is `default`, not explicit. -/
def stubFactory (infos : List Info) : Factory :=
  ⟨(lit "default", false, none), fun _ => .ok infos⟩

/-- The secret `test1/secret1` of the test, as it arrives untyped: the values
are the base64 encodings of `value1`, `value2`, `value3`. -/
def testSecret1 : Info :=
  { Namespace := lit "test1", Name := lit "secret1",
    Object := .Unstructured
      [(lit "kind", .string (lit "Secret")),
       (lit "data", .object
         [(lit "key1", .string (lit "dmFsdWUx")),
          (lit "key2", .string (lit "dmFsdWUy")),
          (lit "key3", .string (lit "dmFsdWUz"))])] }

/-- The secret `test2/nodata` of the test: its `data` is nil. -/
def testNoData : Info :=
  { Namespace := lit "test2", Name := lit "nodata",
    Object := .Unstructured [(lit "kind", .string (lit "Secret")), (lit "data", .null)] }

/-- A record whose object is a `*v1.Pod`, as the fake client of the test returns. -/
def testPod : Info :=
  { Namespace := lit "test1", Name := lit "pod1", Object := .other (lit "*v1.Pod") }

/-- Options that select all namespaces with a pattern matching exactly the name `secret1`. -/
def testOptions : Options :=
  { NewOptions with
    AllNamespaces := true
    Output := lit "json"
    CompliedRegex := some (fun name => decide (name = lit "secret1")) }

/-! ## `kubectl.go`, `main.go`, `find.go` -/

/-- An `*exec.Cmd` as `exec.CommandContext(ctx, name, arg...)` builds it: the
program `name` and the arguments `arg` after it. The context is not part of
the model. -/
structure Cmd where
  Name : GoString
  Args : List GoString
  deriving DecidableEq, Repr

/-- The function `kubectl`: the value of the environment variable
`KUBECTL_COMMAND` if it is not empty, `kubectl` otherwise; `env` is what
`os.Getenv("KUBECTL_COMMAND")` returns. -/
def kubectl (env : GoString) : GoString :=
  if env ≠ [] then env else lit "kubectl"

/-- The function `kubectlGetSecret`: the command `kubectl get secret opt...`. -/
def kubectlGetSecret (env : GoString) (opt : List GoString) : Cmd :=
  { Name := kubectl env, Args := [lit "get", lit "secret"] ++ opt }

/-- The function `kubectlGetNamespace`: the command `kubectl get namespace opt...`. -/
def kubectlGetNamespace (env : GoString) (opt : List GoString) : Cmd :=
  { Name := kubectl env, Args := [lit "get", lit "namespace"] ++ opt }

/-- Modelled from the spec: the declaration of the struct `options` that
`find.go` is written against is missing; the one in `main.go` has the field
`AllNamespace` and no multi-namespace field, while `secretCommands` reads
`opt.AllNamespaces` (a bool) and `opt.MultiNamespaces` (a comma-separated
string). The struct has the fields of `main.go` that `toKubectlOptions` and
`secretCommands` read, and the all-namespaces boolean and multi-namespace
comma list of the spec's CLI surface under the names `find.go` uses. -/
structure options where
  Namespace : GoString
  KubeContext : GoString
  KubeConfing : GoString
  Cluster : GoString
  Output : GoString
  Regex : GoString
  AllNamespaces : Bool
  MultiNamespaces : GoString

/-- The function `newOptions` of `main.go`: output `yaml`, nothing else set. -/
def newOptions : options :=
  { Namespace := [], KubeContext := [], KubeConfing := [], Cluster := [],
    Output := lit "yaml", Regex := [], AllNamespaces := false, MultiNamespaces := [] }

/-- The method `options.toKubectlOptions`; each `append` under an `if` adds
its two strings or nothing. -/
def options.toKubectlOptions (o : options) : List GoString :=
  let opts := [lit "-o", o.Output]
  let opts := opts ++ (if o.Cluster ≠ [] then [lit "--cluster", o.Cluster] else [])
  let opts := opts ++ (if o.KubeConfing ≠ [] then [lit "--kubeconfig", o.KubeConfing] else [])
  let opts := opts ++ (if o.KubeContext ≠ [] then [lit "--context", o.KubeContext] else [])
  opts

/-- A `v1.Namespace`, by the one field `secretCommands` reads. -/
structure v1.Namespace where
  Name : GoString

/-- What `getAllNamespaces` takes from outside the program; an error is given
by its message. -/
structure Shell where
  /-- The call `cmd.CombinedOutput()`: the output of running the command. -/
  CombinedOutput : Cmd → Except GoString (List Byte)
  /-- The call `json.Unmarshal(b, &nl)` followed by the read of `nl.Items`. -/
  UnmarshalNamespaceList : List Byte → Except GoString (List v1.Namespace)

/-- The function `getAllNamespaces`: run `kubectl get namespace -o json` and
decode the items of the list it prints. -/
def getAllNamespaces (env : GoString) (sh : Shell) : Except GoError (List v1.Namespace) :=
  match sh.CombinedOutput (kubectlGetNamespace env [lit "-o", lit "json"]) with
  | .error err => .error (.foreign err)
  | .ok b =>
    match sh.UnmarshalNamespaceList b with
    | .error err => .error (.foreign err)
    | .ok items => .ok items

/-- The function `secretCommands`: the commands to run, or the error. The
loop over `namespaces` appends each name to `ns`; the loop over `ns` fills
`cmds[i]` from `ns[i]`. -/
def secretCommands (env : GoString) (sh : Shell) (name : GoString) (opt : options) :
    Except GoError (List Cmd) :=
  if name ≠ [] ∧ opt.Namespace ≠ [] then
    .error (.errorString (lit "specify name or namespace"))
  else
    let o := opt.toKubectlOptions
    if name ≠ [] then
      .ok [kubectlGetSecret env ([name, lit "-n", opt.Namespace] ++ o)]
    else
      let ns := [opt.Namespace]
      let listed : Except GoError (List GoString) :=
        if opt.AllNamespaces then
          match getAllNamespaces env sh with
          | .error err => .error err
          | .ok namespaces => .ok (namespaces.foldl (fun ns n => ns ++ [n.Name]) ns)
        else .ok ns
      match listed with
      | .error err => .error err
      | .ok ns =>
        let ns := if opt.MultiNamespaces.length ≠ 0 then ns ++ Split comma opt.MultiNamespaces else ns
        .ok (ns.map fun n => kubectlGetSecret env ([lit "-n", n] ++ o))

/-! # Theorems -/

/-! ## Round trip of the base64 codec -/

theorem decodeMap_encodeChar (n : Nat) (h : n < 64) : decodeMap (encodeChar n) = some n := by
  have key : ∀ i : Fin 64, decodeMap (encodeChar i.val) = some i.val := by decide
  exact key ⟨n, h⟩

theorem decodeMap_padChar : decodeMap padChar = none := by decide

theorem isNewline_padChar : isNewline padChar = false := by decide

theorem quantumBytes_four (b0 b1 b2 : Byte) :
    quantumBytes
      [(b0.val * 65536 + b1.val * 256 + b2.val) / 262144 % 64,
       (b0.val * 65536 + b1.val * 256 + b2.val) / 4096 % 64,
       (b0.val * 65536 + b1.val * 256 + b2.val) / 64 % 64,
       (b0.val * 65536 + b1.val * 256 + b2.val) % 64] = [b0, b1, b2] := by
  have h0 := b0.isLt
  have h1 := b1.isLt
  have h2 := b2.isLt
  simp only [quantumBytes, List.getD_cons_zero, List.getD_cons_succ, List.length_cons,
    List.length_nil, List.map_cons, List.map_nil]
  simp only [List.take, Nat.add_one_sub_one, List.cons.injEq, and_true]
  refine ⟨?_, ?_, ?_⟩ <;> apply Fin.ext <;> simp only [Fin.ofNat, Fin.val_mk] <;> omega

theorem quantumBytes_three (b0 b1 : Byte) :
    quantumBytes
      [(b0.val * 65536 + b1.val * 256) / 262144 % 64,
       (b0.val * 65536 + b1.val * 256) / 4096 % 64,
       (b0.val * 65536 + b1.val * 256) / 64 % 64] = [b0, b1] := by
  have h0 := b0.isLt
  have h1 := b1.isLt
  simp only [quantumBytes, List.getD_cons_zero, List.getD_cons_succ, List.length_cons,
    List.length_nil, List.map_cons, List.map_nil, List.getD_nil]
  simp only [List.take, Nat.add_one_sub_one, List.cons.injEq, and_true]
  refine ⟨?_, ?_⟩ <;> apply Fin.ext <;> simp only [Fin.ofNat, Fin.val_mk] <;> omega

theorem quantumBytes_two (b0 : Byte) :
    quantumBytes [(b0.val * 65536) / 262144 % 64, (b0.val * 65536) / 4096 % 64] = [b0] := by
  have h0 := b0.isLt
  simp only [quantumBytes, List.getD_cons_zero, List.getD_cons_succ, List.length_cons,
    List.length_nil, List.map_cons, List.map_nil, List.getD_nil]
  simp only [List.take, Nat.add_one_sub_one, List.cons.injEq, and_true]
  apply Fin.ext
  simp only [Fin.ofNat, Fin.val_mk]
  omega

/-- Decoding the encoding of `bs`, started between two quanta, appends `bs`. -/
theorem decodeLoop_EncodeToString (len : Nat) (bs : List Byte) :
    ∀ (si : Nat) (out : List Byte),
      decodeLoop len (EncodeToString bs) si [] out = (out ++ bs, none) := by
  induction bs using EncodeToString.induct with
  | case1 b0 b1 b2 rest ih =>
    intro si out
    have e0 := decodeMap_encodeChar ((b0.val * 65536 + b1.val * 256 + b2.val) / 262144 % 64)
      (Nat.mod_lt _ (by decide))
    have e1 := decodeMap_encodeChar ((b0.val * 65536 + b1.val * 256 + b2.val) / 4096 % 64)
      (Nat.mod_lt _ (by decide))
    have e2 := decodeMap_encodeChar ((b0.val * 65536 + b1.val * 256 + b2.val) / 64 % 64)
      (Nat.mod_lt _ (by decide))
    have e3 := decodeMap_encodeChar ((b0.val * 65536 + b1.val * 256 + b2.val) % 64)
      (Nat.mod_lt _ (by decide))
    simp only [EncodeToString, decodeLoop, e0, e1, e2, e3, List.nil_append, List.cons_append,
      List.length_cons, List.length_nil]
    simp only [Nat.reduceAdd, Nat.reduceEqDiff, if_false, if_true, quantumBytes_four, ih,
      List.append_assoc, List.cons_append, List.nil_append]
  | case2 b0 b1 =>
    intro si out
    have e0 := decodeMap_encodeChar ((b0.val * 65536 + b1.val * 256) / 262144 % 64)
      (Nat.mod_lt _ (by decide))
    have e1 := decodeMap_encodeChar ((b0.val * 65536 + b1.val * 256) / 4096 % 64)
      (Nat.mod_lt _ (by decide))
    have e2 := decodeMap_encodeChar ((b0.val * 65536 + b1.val * 256) / 64 % 64)
      (Nat.mod_lt _ (by decide))
    simp only [EncodeToString, decodeLoop, e0, e1, e2, decodeMap_padChar, isNewline_padChar,
      List.nil_append, List.cons_append, List.length_cons, List.length_nil]
    simp [finishPadding, skipNewlines, quantumBytes_three]
  | case3 b0 =>
    intro si out
    have e0 := decodeMap_encodeChar ((b0.val * 65536) / 262144 % 64) (Nat.mod_lt _ (by decide))
    have e1 := decodeMap_encodeChar ((b0.val * 65536) / 4096 % 64) (Nat.mod_lt _ (by decide))
    simp only [EncodeToString, decodeLoop, e0, e1, decodeMap_padChar, isNewline_padChar,
      List.nil_append, List.cons_append, List.length_cons, List.length_nil]
    simp [finishPadding, skipNewlines, quantumBytes_two, isNewline_padChar]
  | case4 =>
    intro si out
    simp [EncodeToString, decodeLoop]

/-- Decoding round trip: `DecodeString (EncodeToString bs)` returns `bs` and no error. -/
theorem DecodeString_EncodeToString (bs : List Byte) :
    DecodeString (EncodeToString bs) = (bs, none) := by
  simpa [DecodeString] using decodeLoop_EncodeToString (EncodeToString bs).length bs 0 []

/-! ## Go maps -/

theorem GoMap.get_set {α : Type} (m : GoMap α) (k k' : GoString) (v : α) :
    (m.set k v).get k' = if k = k' then some v else m.get k' := by
  induction m with
  | nil => simp [GoMap.set, GoMap.get]
  | cons kv m ih =>
    obtain ⟨k0, v0⟩ := kv
    by_cases h0 : k0 = k
    · subst h0
      by_cases h1 : k0 = k' <;> simp [GoMap.set, GoMap.get, h1]
    · by_cases h1 : k0 = k'
      · subst h1
        have h2 : ¬ k = k0 := fun h => h0 h.symm
        simp [GoMap.set, GoMap.get, h0, h2]
      · simp [GoMap.set, GoMap.get, h0, h1, ih]

theorem GoMap.get_eq_none_of_not_mem {α : Type} (m : GoMap α) (k : GoString)
    (h : k ∉ m.map Prod.fst) : m.get k = none := by
  induction m with
  | nil => rfl
  | cons kv m ih =>
    obtain ⟨k0, v0⟩ := kv
    simp only [List.map_cons, List.mem_cons, not_or] at h
    have h0 : ¬ k0 = k := fun e => h.1 e.symm
    simp [GoMap.get, h0, ih h.2]

/-- Assigning the entries of a map with distinct keys one after the other:
an entry of `m` wins over what `d` held. -/
theorem GoMap.get_foldl_set {α β : Type} (g : β → α) (m : GoMap β)
    (hnodup : (m.map Prod.fst).Nodup) (k : GoString) :
    ∀ d : GoMap α, (m.foldl (fun d kv => d.set kv.1 (g kv.2)) d).get k =
      match m.get k with
      | some v => some (g v)
      | none => d.get k := by
  induction m with
  | nil => intro d; rfl
  | cons kv m ih =>
    intro d
    obtain ⟨k0, v0⟩ := kv
    simp only [List.map_cons, List.nodup_cons] at hnodup
    rw [List.foldl_cons, ih hnodup.2]
    by_cases h0 : k0 = k
    · subst h0
      simp [GoMap.get, GoMap.get_eq_none_of_not_mem m k0 hnodup.1, GoMap.get_set]
    · simp [GoMap.get, h0, GoMap.get_set]

/-! ## `getSecretData` -/

/-- The untyped record data that holds the base64 encoding of each plaintext. -/
theorem getSecretData_loop_encoded (m : GoMap GoString) :
    ∀ data : GoMap GoString,
      getSecretData.loop (m.map fun kv => (kv.1, Value.string (EncodeToString kv.2))) data =
        .ret (some (m.foldl (fun d kv => d.set kv.1 (id kv.2)) data), none) := by
  induction m with
  | nil => intro data; rfl
  | cons kv m ih =>
    intro data
    simp only [List.map_cons, getSecretData.loop, DecodeString_EncodeToString, ih,
      List.foldl_cons, id]

/-- C1: round trip through `getSecretData`. For every mapping `m` of key to
plaintext (distinct keys, in any iteration order), an untyped record whose
`data` entry maps each key to the standard base64 encoding of its plaintext is
decoded without error, and the returned map has at every key exactly what `m`
has: the same key set, each key with its original plaintext. -/
theorem getSecretData_roundtrip (Object : GoMap Value) (m : GoMap GoString)
    (hnodup : (m.map Prod.fst).Nodup)
    (hdata : Object.get (lit "data") =
      some (.object (m.map fun kv => (kv.1, Value.string (EncodeToString kv.2))))) :
    ∃ d, getSecretData (.Unstructured Object) = .ret (some d, none) ∧
      ∀ k, d.get k = m.get k := by
  refine ⟨m.foldl (fun d kv => d.set kv.1 (id kv.2)) [], ?_, ?_⟩
  · simp only [getSecretData, hdata, getSecretData_loop_encoded]
  · intro k
    rw [GoMap.get_foldl_set id m hnodup k []]
    cases m.get k <;> simp [GoMap.get]

theorem getSecretData_roundtrip_witness :
    ∃ d, getSecretData (.Unstructured
        [(lit "kind", .string (lit "Secret")),
         (lit "data", .object
           [(lit "key1", .string (EncodeToString (lit "value1"))),
            (lit "key2", .string (EncodeToString (lit "hello")))])]) = .ret (some d, none) ∧
      ∀ k, d.get k = GoMap.get [(lit "key1", lit "value1"), (lit "key2", lit "hello")] k :=
  getSecretData_roundtrip _ [(lit "key1", lit "value1"), (lit "key2", lit "hello")]
    (by decide) rfl

/-! ## `Options.Complete` -/

theorem errOutput_getLast (output : GoString) :
    (errOutput output).Error.getLast? = some 34 := by
  simp only [errOutput, GoError.Error]
  rw [List.getLast?_append]
  have : (lit " is invalid: --output must be \"yaml\", or \"json\"").getLast? = some 34 := by
    decide
  rw [this]
  rfl

theorem errOutput_ne_errSelect (output : GoString) : errOutput output ≠ errSelect := by
  intro h
  have h1 := errOutput_getLast output
  rw [h] at h1
  revert h1
  decide

theorem errOutput_ne_errChoose (output : GoString) : errOutput output ≠ errChoose := by
  intro h
  have h1 := errOutput_getLast output
  rw [h] at h1
  revert h1
  decide

theorem afterNamespaceCheck_ne (lib : Lib) (o : Options) :
    afterNamespaceCheck lib o ≠ some errSelect ∧ afterNamespaceCheck lib o ≠ some errChoose := by
  unfold afterNamespaceCheck
  split
  · exact ⟨fun h => errOutput_ne_errSelect _ (Option.some.inj h),
      fun h => errOutput_ne_errChoose _ (Option.some.inj h)⟩
  · split <;> simp [errSelect, errChoose]

theorem nTrue_three (a b c : Bool) :
    nTrue [a, b, c] = (if a then 1 else 0) + (if b then 1 else 0) + (if c then 1 else 0) := by
  cases a <;> cases b <;> cases c <;> rfl

/-- The error of `Complete`, by the count of the namespace switch. -/
theorem Complete_err (lib : Lib) (Do : Query → Except GoString (List Info))
    (args : List GoString) (o : Options) (ns : GoString) (explicit : Bool) :
    (o.Complete lib ⟨(ns, explicit, none), Do⟩ args).2 =
      if nTrue [explicit && decide (ns ≠ []), o.AllNamespaces,
          decide (o.MultiNamespacesString ≠ [])] = 0 then some errSelect
      else if 2 ≤ nTrue [explicit && decide (ns ≠ []), o.AllNamespaces,
          decide (o.MultiNamespacesString ≠ [])] then some errChoose
      else afterNamespaceCheck lib o := by
  obtain ⟨ons, all, ms, output, sel, regex, sname, cre, mn⟩ := o
  simp only [Options.Complete, afterNamespaceCheck, nTrue_three]
  cases explicit <;> by_cases hns : ns = [] <;> cases all <;> by_cases hm : ms = [] <;>
    simp only [hns, hm, if_true, if_false, Bool.not_false, Bool.not_true, ne_eq,
      not_true_eq_false, not_false_eq_true, decide_True, decide_False, Bool.false_and,
      Bool.true_and, Bool.false_eq_true, Nat.add_zero, Nat.zero_add, Nat.reduceAdd,
      Nat.reduceLeDiff, Nat.reduceEqDiff, or_self, or_true, true_or, one_ne_zero, le_refl] <;>
    first
      | rfl
      | (split <;> first | rfl | (split <;> rfl))

/-- C2: the namespace-selection check of `Complete`, by the truth values of
its three inputs: "an explicit single namespace that is not empty",
"the all-namespaces flag is set", "the multi-namespace string is not empty".
When none holds, `Complete` fails with "must select at least a namespace".
When two or all three hold, it fails with "must choose one option to use for
selecting namespace". When exactly one holds, the check passes: `Complete`
goes on to the checks of `Output` and `Regex` and returns what they give. So
`Complete` returns neither of the two namespace errors if and only if exactly
one of the three inputs holds. -/
theorem Complete_namespace_check (lib : Lib) (Do : Query → Except GoString (List Info))
    (args : List GoString) (o : Options) (ns : GoString) (explicit : Bool) :
    ((¬ (explicit = true ∧ ns ≠ []) ∧ o.AllNamespaces = false ∧
        o.MultiNamespacesString = []) →
      (o.Complete lib ⟨(ns, explicit, none), Do⟩ args).2 =
        some (.errorString (lit "must select at least a namespace"))) ∧
    ((((explicit = true ∧ ns ≠ []) ∧ o.AllNamespaces = true) ∨
        ((explicit = true ∧ ns ≠ []) ∧ o.MultiNamespacesString ≠ []) ∨
        (o.AllNamespaces = true ∧ o.MultiNamespacesString ≠ [])) →
      (o.Complete lib ⟨(ns, explicit, none), Do⟩ args).2 =
        some (.errorString (lit "must choose one option to use for selecting namespace"))) ∧
    ((((explicit = true ∧ ns ≠ []) ∧ o.AllNamespaces = false ∧
          o.MultiNamespacesString = []) ∨
        (¬ (explicit = true ∧ ns ≠ []) ∧ o.AllNamespaces = true ∧
          o.MultiNamespacesString = []) ∨
        (¬ (explicit = true ∧ ns ≠ []) ∧ o.AllNamespaces = false ∧
          o.MultiNamespacesString ≠ [])) →
      (o.Complete lib ⟨(ns, explicit, none), Do⟩ args).2 = afterNamespaceCheck lib o) ∧
    (((o.Complete lib ⟨(ns, explicit, none), Do⟩ args).2 ≠
          some (.errorString (lit "must select at least a namespace")) ∧
        (o.Complete lib ⟨(ns, explicit, none), Do⟩ args).2 ≠
          some (.errorString (lit "must choose one option to use for selecting namespace"))) ↔
      (((explicit = true ∧ ns ≠ []) ∧ o.AllNamespaces = false ∧
          o.MultiNamespacesString = []) ∨
        (¬ (explicit = true ∧ ns ≠ []) ∧ o.AllNamespaces = true ∧
          o.MultiNamespacesString = []) ∨
        (¬ (explicit = true ∧ ns ≠ []) ∧ o.AllNamespaces = false ∧
          o.MultiNamespacesString ≠ []))) := by
  have key := Complete_err lib Do args o ns explicit
  rw [nTrue_three] at key
  have hne := afterNamespaceCheck_ne lib o
  have hS : (some errSelect : Option GoError) =
      some (.errorString (lit "must select at least a namespace")) := rfl
  have hC : (some errChoose : Option GoError) =
      some (.errorString (lit "must choose one option to use for selecting namespace")) := rfl
  have hSC : (some errSelect : Option GoError) ≠ some errChoose := by decide
  rw [hS, hC] at hne hSC
  rw [hS, hC] at key
  cases explicit <;> by_cases hns : ns = [] <;> cases hA : o.AllNamespaces <;>
    by_cases hm : o.MultiNamespacesString = [] <;>
    simp only [hns, hA, hm, Bool.false_and, Bool.true_and, ne_eq, not_true_eq_false,
      not_false_eq_true, decide_True, decide_False, Bool.false_eq_true, if_true, if_false,
      Nat.add_zero, Nat.zero_add, Nat.reduceAdd, Nat.reduceLeDiff, Nat.reduceEqDiff,
      one_ne_zero, le_refl] at key <;>
    simp only [key, hns, hm, Bool.false_eq_true, false_and, and_false, and_true, true_and,
      not_true_eq_false, not_false_eq_true, ne_eq, or_false, false_or, or_self, or_true,
      true_or, false_implies, true_implies, implies_true, and_self, iff_true, iff_false,
      not_and, hne.1, hne.2, hSC, hSC.symm, reduceCtorEq]

theorem Complete_namespace_check_witness :
    (Options.Complete stubLib ⟨(lit "test1", true, none), fun _ => .ok []⟩ []
        { NewOptions with AllNamespaces := true }).2 =
      some (.errorString (lit "must choose one option to use for selecting namespace")) ∧
    (Options.Complete stubLib ⟨(lit "default", false, none), fun _ => .ok []⟩ []
        NewOptions).2 =
      some (.errorString (lit "must select at least a namespace")) ∧
    (Options.Complete stubLib ⟨(lit "test1", true, none), fun _ => .ok []⟩ []
        NewOptions).2 = afterNamespaceCheck stubLib NewOptions :=
  ⟨(Complete_namespace_check stubLib (fun _ => .ok []) []
      { NewOptions with AllNamespaces := true } (lit "test1") true).2.1
      (Or.inl ⟨⟨rfl, by decide⟩, rfl⟩),
   (Complete_namespace_check stubLib (fun _ => .ok []) [] NewOptions (lit "default") false).1
      ⟨fun h => Bool.noConfusion h.1, rfl, rfl⟩,
   (Complete_namespace_check stubLib (fun _ => .ok []) [] NewOptions (lit "test1") true).2.2.1
      (Or.inl ⟨⟨rfl, by decide⟩, rfl, rfl⟩)⟩

/-- C3, evaluated on the code: after `Complete` on the multi-namespace string
`ns1,ns2` (the list is retained and the mode promoted to all namespaces),
`match` accepts a secret of the namespace `kube-system`, which is not listed. -/
theorem match_after_Complete_multi_accepts_unlisted :
    (((({ NewOptions with MultiNamespacesString := lit "ns1,ns2" } : Options).Complete
        ⟨fun _ => .ok (fun _ => true), fun _ => .ok [], fun _ => .ok []⟩
        ⟨(lit "default", false, none), fun _ => .ok []⟩ []).1.MultiNamespaces =
          [lit "ns1", lit "ns2"]) ∧
      ((({ NewOptions with MultiNamespacesString := lit "ns1,ns2" } : Options).Complete
        ⟨fun _ => .ok (fun _ => true), fun _ => .ok [], fun _ => .ok []⟩
        ⟨(lit "default", false, none), fun _ => .ok []⟩ []).1.AllNamespaces = true) ∧
      ((({ NewOptions with MultiNamespacesString := lit "ns1,ns2" } : Options).Complete
        ⟨fun _ => .ok (fun _ => true), fun _ => .ok [], fun _ => .ok []⟩
        ⟨(lit "default", false, none), fun _ => .ok []⟩ []).1.match_
          (lit "kube-system") (lit "secret1") = .ret true)) := by
  decide

/-! ## `Options.match` -/

/-- C4: single-namespace filtering. For options whose `Namespace` is a
non-empty `n` and whose pattern is compiled, `match` returns the conjunction
of "the pattern matches the secret name" and "the namespace is `n`"; a name
that does not match is rejected whatever the namespace. -/
theorem match_single_namespace (o : Options) (re : Regexp) (n ns name : GoString)
    (hn : o.Namespace = n) (hne : n ≠ []) (hre : o.CompliedRegex = some re) :
    (o.match_ ns name = .ret true ↔ (re name = true ∧ ns = n)) ∧
      o.match_ ns name = .ret (re name && decide (ns = n)) ∧
      (re name = false → ∀ ns', o.match_ ns' name = .ret false) := by
  subst hn
  have h : ∀ ns', o.match_ ns' name = .ret (re name && decide (ns' = o.Namespace)) := by
    intro ns'
    unfold Options.match_
    rw [hre]
    have e : (o.Namespace = ns') = (ns' = o.Namespace) := propext ⟨Eq.symm, Eq.symm⟩
    cases hr : re name <;> simp [hne, e, hr]
  refine ⟨?_, h ns, ?_⟩
  · rw [h ns]
    simp
  · intro hr ns'
    rw [h ns', hr]
    rfl

theorem match_single_namespace_witness :
    (Options.match_
        { NewOptions with
          Namespace := lit "test1"
          CompliedRegex := some (fun s => decide (s = lit "secret1")) }
        (lit "test1") (lit "secret1") = .ret true ↔
      ((fun s => decide (s = lit "secret1")) (lit "secret1") = true ∧ lit "test1" = lit "test1")) ∧
    Options.match_
        { NewOptions with
          Namespace := lit "test1"
          CompliedRegex := some (fun s => decide (s = lit "secret1")) }
        (lit "test1") (lit "secret1") =
      .ret ((fun s => decide (s = lit "secret1")) (lit "secret1") &&
        decide (lit "test1" = lit "test1")) ∧
    ((fun s => decide (s = lit "secret1")) (lit "secret1") = false →
      ∀ ns', Options.match_
        { NewOptions with
          Namespace := lit "test1"
          CompliedRegex := some (fun s => decide (s = lit "secret1")) }
        ns' (lit "secret1") = .ret false) :=
  match_single_namespace _ (fun s => decide (s = lit "secret1")) (lit "test1") (lit "test1")
    (lit "secret1") rfl (by decide) rfl

theorem Split_of_not_mem (sep : Byte) (s : GoString) (h : sep ∉ s) : Split sep s = [s] := by
  induction s with
  | nil => rfl
  | cons c rest ih =>
    simp only [List.mem_cons, not_or] at h
    have hc : ¬ c = sep := fun e => h.1 e.symm
    simp [Split, hc, ih h.2]

/-- C5: a multi-namespace list of length 1 is a single namespace. For a
non-empty `n` without a comma, `Complete` given only the multi-namespace
string `n` (no explicit namespace, whatever the default `dflt` of the
environment) yields `Namespace = n` and `AllNamespaces = false`, as does
`Complete` given only the explicit namespace `n`; both calls return the same
error, and `match` of the resulting options agrees on every pair. -/
theorem Complete_multi_one_eq_single (lib : Lib) (Do : Query → Except GoString (List Info))
    (args : List GoString) (o : Options) (dflt n : GoString)
    (hne : n ≠ []) (hcomma : comma ∉ n) :
    (Options.Complete lib ⟨(dflt, false, none), Do⟩ args
        { o with AllNamespaces := false, MultiNamespacesString := n, MultiNamespaces := [] }).1.Namespace = n ∧
    (Options.Complete lib ⟨(dflt, false, none), Do⟩ args
        { o with AllNamespaces := false, MultiNamespacesString := n, MultiNamespaces := [] }).1.AllNamespaces = false ∧
    (Options.Complete lib ⟨(n, true, none), Do⟩ args
        { o with AllNamespaces := false, MultiNamespacesString := [], MultiNamespaces := [] }).1.Namespace = n ∧
    (Options.Complete lib ⟨(n, true, none), Do⟩ args
        { o with AllNamespaces := false, MultiNamespacesString := [], MultiNamespaces := [] }).1.AllNamespaces = false ∧
    (Options.Complete lib ⟨(dflt, false, none), Do⟩ args
        { o with AllNamespaces := false, MultiNamespacesString := n, MultiNamespaces := [] }).2 =
      (Options.Complete lib ⟨(n, true, none), Do⟩ args
        { o with AllNamespaces := false, MultiNamespacesString := [], MultiNamespaces := [] }).2 ∧
    ∀ ns name,
      (Options.Complete lib ⟨(dflt, false, none), Do⟩ args
        { o with AllNamespaces := false, MultiNamespacesString := n, MultiNamespaces := [] }).1.match_ ns name =
      (Options.Complete lib ⟨(n, true, none), Do⟩ args
        { o with AllNamespaces := false, MultiNamespacesString := [], MultiNamespaces := [] }).1.match_ ns name := by
  obtain ⟨ons, all, ms, output, sel, regex, sname, cre, mn⟩ := o
  simp only [Options.Complete, nTrue_three, Split_of_not_mem comma n hcomma, hne,
    if_true, if_false, Bool.not_false, Bool.not_true, ne_eq,
    not_true_eq_false, not_false_eq_true, decide_True, decide_False,
    Bool.false_eq_true, Nat.add_zero, Nat.zero_add, Nat.reduceAdd,
    Nat.reduceEqDiff, or_self, one_ne_zero, List.length_cons, List.length_nil,
    List.headD_cons, Nat.lt_irrefl, OfNat.one_ne_ofNat]
  by_cases hout : ¬output = lit "json" ∧ ¬output = lit "yaml"
  · simp only [hout, and_self, if_true, Options.match_, hne, ne_eq, not_false_eq_true,
      Nat.not_lt_zero, if_false, implies_true]
  · cases hc : lib.Compile regex <;>
      simp only [hout, if_false, Options.match_, hne, ne_eq, not_false_eq_true,
        Nat.not_lt_zero, if_true, implies_true, and_self]

theorem Complete_multi_one_eq_single_witness :
    (Options.Complete ⟨fun _ => .ok (fun _ => true), fun _ => .ok [], fun _ => .ok []⟩
        ⟨(lit "default", false, none), fun _ => .ok []⟩ []
        { NewOptions with
          AllNamespaces := false
          MultiNamespacesString := lit "test1"
          MultiNamespaces := [] }).1.Namespace = lit "test1" ∧
    (Options.Complete ⟨fun _ => .ok (fun _ => true), fun _ => .ok [], fun _ => .ok []⟩
        ⟨(lit "test1", true, none), fun _ => .ok []⟩ []
        { NewOptions with
          AllNamespaces := false
          MultiNamespacesString := []
          MultiNamespaces := [] }).1.Namespace = lit "test1" ∧
    ∀ ns name,
      (Options.Complete ⟨fun _ => .ok (fun _ => true), fun _ => .ok [], fun _ => .ok []⟩
        ⟨(lit "default", false, none), fun _ => .ok []⟩ []
        { NewOptions with
          AllNamespaces := false
          MultiNamespacesString := lit "test1"
          MultiNamespaces := [] }).1.match_ ns name =
      (Options.Complete ⟨fun _ => .ok (fun _ => true), fun _ => .ok [], fun _ => .ok []⟩
        ⟨(lit "test1", true, none), fun _ => .ok []⟩ []
        { NewOptions with
          AllNamespaces := false
          MultiNamespacesString := []
          MultiNamespaces := [] }).1.match_ ns name :=
  have h := Complete_multi_one_eq_single
    ⟨fun _ => .ok (fun _ => true), fun _ => .ok [], fun _ => .ok []⟩ (fun _ => .ok []) []
    NewOptions (lit "default") (lit "test1") (by decide) (by decide)
  ⟨h.1, h.2.2.1, h.2.2.2.2.2⟩

/-! ## The loop of `Options.Run` -/

theorem GoMap.set_ne_nil {α : Type} (m : GoMap α) (k : GoString) (v : α) : m.set k v ≠ [] := by
  cases m with
  | nil => simp [GoMap.set]
  | cons kv m =>
    obtain ⟨k0, v0⟩ := kv
    by_cases h : k0 = k <;> simp [GoMap.set, h]

theorem GoMap.set_set {α : Type} (m : GoMap α) (k : GoString) (v v' : α) :
    (m.set k v).set k v' = m.set k v' := by
  induction m with
  | nil => simp [GoMap.set]
  | cons kv m ih =>
    obtain ⟨k0, v0⟩ := kv
    by_cases h : k0 = k <;> simp [GoMap.set, h, ih]

/-- One pass of the loop body on a record that matches and decodes. -/
theorem Run_loop_cons_pass (o : Options) (info : Info) (infos : List Info)
    (secretdata : SecretDataMap) (data : Option (GoMap GoString))
    (hm : o.match_ info.Namespace info.Name = .ret true)
    (hd : getSecretData info.Object = .ret (data, none)) :
    Options.Run.loop o (info :: infos) secretdata =
      Options.Run.loop o infos (insertSecret secretdata info.Namespace info.Name data) := by
  simp only [Options.Run.loop, hm, hd, insertSecret]
  cases hg : secretdata.get info.Namespace with
  | none => simp [GoMap.get_set, GoMap.set_set]
  | some inner => simp [hg]

theorem Run_loop_cons_skip (o : Options) (info : Info) (infos : List Info)
    (secretdata : SecretDataMap)
    (hm : o.match_ info.Namespace info.Name = .ret false) :
    Options.Run.loop o (info :: infos) secretdata = Options.Run.loop o infos secretdata := by
  simp only [Options.Run.loop, hm]

theorem Run_loop_cons_err (o : Options) (info : Info) (infos : List Info)
    (secretdata : SecretDataMap) (data : Option (GoMap GoString)) (err : GoError)
    (hm : o.match_ info.Namespace info.Name = .ret true)
    (hd : getSecretData info.Object = .ret (data, some err)) :
    Options.Run.loop o (info :: infos) secretdata = .ret (secretdata, some err) := by
  simp only [Options.Run.loop, hm, hd]

theorem entry_insertSecret (secretdata : SecretDataMap) (ns name ns' name' : GoString)
    (data : Option (GoMap GoString)) :
    entry (insertSecret secretdata ns name data) ns' name' =
      if ns = ns' ∧ name = name' then some data else entry secretdata ns' name' := by
  unfold entry insertSecret
  rw [GoMap.get_set]
  by_cases h : ns = ns'
  · subst h
    simp only [if_true, Option.some_bind, true_and]
    rw [GoMap.get_set]
    by_cases h' : name = name'
    · simp [h']
    · simp only [h', if_false]
      cases secretdata.get ns <;> simp [GoMap.get]
  · simp [h]

theorem insertSecret_ne_nil (secretdata : SecretDataMap) (ns name : GoString)
    (data : Option (GoMap GoString)) : insertSecret secretdata ns name data ≠ [] :=
  GoMap.set_ne_nil _ _ _

theorem insertSecret_inner_ne_nil (secretdata : SecretDataMap) (ns name : GoString)
    (data : Option (GoMap GoString))
    (h : ∀ ns' inner, secretdata.get ns' = some inner → inner ≠ []) :
    ∀ ns' inner, (insertSecret secretdata ns name data).get ns' = some inner → inner ≠ [] := by
  intro ns' inner hg
  unfold insertSecret at hg
  rw [GoMap.get_set] at hg
  by_cases e : ns = ns'
  · simp only [e, if_true, Option.some.injEq] at hg
    rw [← hg]
    exact GoMap.set_ne_nil _ _ _
  · simp only [e, if_false] at hg
    exact h ns' inner hg

theorem match_of_CompliedRegex_none (o : Options) (h : o.CompliedRegex = none)
    (ns name : GoString) : o.match_ ns name = .panic := by
  simp [Options.match_, h]

theorem match_of_CompliedRegex_some (o : Options) (re : Regexp) (h : o.CompliedRegex = some re)
    (ns name : GoString) : ∃ b, o.match_ ns name = .ret b := by
  simp only [Options.match_, h]
  split
  · exact ⟨_, rfl⟩
  · split
    · exact ⟨_, rfl⟩
    · split <;> exact ⟨_, rfl⟩

theorem CompliedRegex_of_match (o : Options) (ns name : GoString) (b : Bool)
    (h : o.match_ ns name = .ret b) : ∃ re, o.CompliedRegex = some re := by
  cases hre : o.CompliedRegex with
  | none => rw [match_of_CompliedRegex_none o hre] at h; cases h
  | some re => exact ⟨re, rfl⟩

/-- The loop runs through a prefix of records that are rejected, or accepted
and decoded, without returning. -/
theorem Run_loop_through (o : Options) (pre rest : List Info)
    (hpre : ∀ info ∈ pre, o.match_ info.Namespace info.Name = .ret false ∨
      (o.match_ info.Namespace info.Name = .ret true ∧
        ∃ d, getSecretData info.Object = .ret (d, none))) :
    ∀ secretdata, ∃ secretdata',
      Options.Run.loop o (pre ++ rest) secretdata = Options.Run.loop o rest secretdata' := by
  induction pre with
  | nil => intro secretdata; exact ⟨secretdata, rfl⟩
  | cons info pre ih =>
    intro secretdata
    have ih' := ih (fun i hi => hpre i (List.mem_cons_of_mem _ hi))
    rcases hpre info (List.mem_cons_self _ _) with hm | ⟨hm, d, hd⟩
    · rw [List.cons_append, Run_loop_cons_skip o info _ secretdata hm]
      exact ih' secretdata
    · rw [List.cons_append, Run_loop_cons_pass o info _ secretdata d hm hd]
      exact ih' _

/-- A record that `match` rejects leaves the loop as it is without it. -/
theorem Run_loop_skip_mid (o : Options) (pre post : List Info) (bad : Info)
    (hm : o.match_ bad.Namespace bad.Name = .ret false) :
    ∀ secretdata, Options.Run.loop o (pre ++ bad :: post) secretdata =
      Options.Run.loop o (pre ++ post) secretdata := by
  induction pre with
  | nil => intro secretdata; exact Run_loop_cons_skip o bad post secretdata hm
  | cons info pre ih =>
    intro secretdata
    simp only [List.cons_append, Options.Run.loop]
    split
    · rfl
    · exact ih _
    · split
      · rfl
      · rfl
      · split
        · rfl
        · exact ih _

/-- C6, as the code has it: `Run` filters before it decodes. If a fetched
record of unexpected kind (neither a typed Secret nor an untyped object, of
type `T`) passes `match`, and every record before it that passes `match`
decodes without error, `Run` returns the error "`T` is unexpected type" and
writes nothing. If the record does not pass `match`, it is skipped: `Run`
behaves as on the list without it. -/
theorem Run_unexpected_type (lib : Lib) (f : Factory) (o : Options)
    (pre post : List Info) (bad : Info) (T : GoString)
    (hf : o.secretInfos f = .ok (pre ++ bad :: post))
    (hT : bad.Object = .other T) :
    (o.match_ bad.Namespace bad.Name = .ret true →
      (∀ info ∈ pre, o.match_ info.Namespace info.Name = .ret true →
        ∃ d, getSecretData info.Object = .ret (d, none)) →
      o.Run lib f = .ret ([], some (.errorString (T ++ lit " is unexpected type")))) ∧
    (o.match_ bad.Namespace bad.Name = .ret false →
      ∀ f', o.secretInfos f' = .ok (pre ++ post) → o.Run lib f = o.Run lib f') := by
  constructor
  · intro hpass hdec
    obtain ⟨re, hre⟩ := CompliedRegex_of_match o _ _ _ hpass
    have hpre : ∀ info ∈ pre, o.match_ info.Namespace info.Name = .ret false ∨
        (o.match_ info.Namespace info.Name = .ret true ∧
          ∃ d, getSecretData info.Object = .ret (d, none)) := by
      intro info hi
      obtain ⟨b, hb⟩ := match_of_CompliedRegex_some o re hre info.Namespace info.Name
      cases b with
      | false => exact Or.inl hb
      | true => exact Or.inr ⟨hb, hdec info hi hb⟩
    obtain ⟨sd, hsd⟩ := Run_loop_through o pre (bad :: post) hpre []
    have hbad : getSecretData bad.Object =
        .ret (none, some (.errorString (T ++ lit " is unexpected type"))) := by
      rw [hT]; rfl
    simp only [Options.Run, hf, hsd, Run_loop_cons_err o bad post sd none _ hpass hbad]
  · intro hrej f' hf'
    simp only [Options.Run, hf, hf', Run_loop_skip_mid o pre post bad hrej]

theorem Run_unexpected_type_witness :
    Options.Run stubLib (stubFactory [testSecret1, { testPod with Name := lit "secret1" }])
        testOptions =
      .ret ([], some (.errorString (lit "*v1.Pod" ++ lit " is unexpected type"))) :=
  (Run_unexpected_type stubLib (stubFactory [testSecret1, { testPod with Name := lit "secret1" }])
    testOptions [testSecret1] [] { testPod with Name := lit "secret1" } (lit "*v1.Pod")
    rfl rfl).1 (by decide)
    (fun info hi _ => by
      rw [List.mem_singleton.mp hi]
      exact ⟨_, rfl⟩)

/-- C6, counterexample: the pod `test1/pod1` does not pass the pattern
`secret1`. Fetched alone, `Run` reports "No secrets found"; fetched before the
secret `test1/secret1`, `Run` succeeds and writes the rendered secret. In
neither run is the error "*v1.Pod is unexpected type" returned. A pod that
does pass the pattern, fetched after a secret whose value `!` is not base64,
is not reported either: `Run` returns the decode error of the secret. -/
theorem Run_skips_unexpected_type_when_filtered :
    Options.Run stubLib (stubFactory [testPod]) testOptions =
        .ret ([], some (.errorString (lit "No secrets found"))) ∧
      Options.Run stubLib (stubFactory [testPod, testSecret1]) testOptions =
        .ret (lit "<json>\n", none) ∧
      Options.Run stubLib
          (stubFactory
            [{ testSecret1 with
               Object := .Unstructured [(lit "data", .object [(lit "key1", .string (lit "!"))])] },
             { testPod with Name := lit "secret1" }])
          testOptions =
        .ret ([], some (.wrapError (lit "decode !: illegal base64 data at input byte 0")
          (.CorruptInputError 0))) := by
  decide

/-- When every `match` returns and every record decodes, the loop returns a
map and no error; the map is empty exactly when it started empty and `match`
rejected every record. -/
theorem Run_loop_total (o : Options) (infos : List Info)
    (hm : ∀ info ∈ infos, ∃ b, o.match_ info.Namespace info.Name = .ret b)
    (hdec : ∀ info ∈ infos, ∃ d, getSecretData info.Object = .ret (d, none)) :
    ∀ secretdata, ∃ secretdata',
      Options.Run.loop o infos secretdata = .ret (secretdata', none) ∧
      (secretdata' = [] ↔
        (secretdata = [] ∧ ∀ info ∈ infos, o.match_ info.Namespace info.Name = .ret false)) := by
  induction infos with
  | nil =>
    intro secretdata
    exact ⟨secretdata, rfl, by simp⟩
  | cons info infos ih =>
    intro secretdata
    have ih' := ih (fun i hi => hm i (List.mem_cons_of_mem _ hi))
      (fun i hi => hdec i (List.mem_cons_of_mem _ hi))
    obtain ⟨b, hb⟩ := hm info (List.mem_cons_self _ _)
    cases b with
    | false =>
      obtain ⟨sd', hl, hiff⟩ := ih' secretdata
      refine ⟨sd', by rw [Run_loop_cons_skip o info infos secretdata hb]; exact hl, ?_⟩
      rw [hiff]
      simp [hb]
    | true =>
      obtain ⟨d, hd⟩ := hdec info (List.mem_cons_self _ _)
      obtain ⟨sd', hl, hiff⟩ := ih' (insertSecret secretdata info.Namespace info.Name d)
      refine ⟨sd', by rw [Run_loop_cons_pass o info infos secretdata d hb hd]; exact hl, ?_⟩
      rw [hiff]
      simp [hb, insertSecret_ne_nil]

/-- The rest of `Run` after the loop has returned the map `secretdata` and no error. -/
theorem Run_of_loop (lib : Lib) (f : Factory) (o : Options) (infos : List Info)
    (secretdata : SecretDataMap) (hf : o.secretInfos f = .ok infos)
    (hl : Options.Run.loop o infos [] = .ret (secretdata, none)) :
    o.Run lib f =
      if secretdata.length = 0 then .ret ([], some errNotFound)
      else if o.Output = lit "json" then
        match lib.MarshalIndent secretdata with
        | .error err => .ret ([], some (.foreign err))
        | .ok v => .ret (v ++ lit "\n", none)
      else if o.Output = lit "yaml" then
        match lib.Marshal secretdata with
        | .error err => .ret ([], some (.foreign err))
        | .ok v => .ret (v ++ lit "\n", none)
      else .ret ([], none) := by
  simp only [Options.Run, hf, hl]

/-- C7, as the code has it: for every options state whose pattern is compiled
(`CompliedRegex` is not nil) and every list of fetched records that all
decode, `Run` fails with "No secrets found" and writes nothing if and only if
no fetched record passes `match`. Otherwise the assembled mapping is not
empty and, when `Output` is `json` or `yaml`, `Run` renders it with the
marshaller of that format: the marshaller returning a text, `Run` succeeds
and writes that text followed by a newline; the marshaller failing, `Run`
returns its error and writes nothing. -/
theorem Run_not_found_iff (lib : Lib) (f : Factory) (o : Options) (infos : List Info)
    (re : Regexp) (hf : o.secretInfos f = .ok infos)
    (hdec : ∀ info ∈ infos, ∃ d, getSecretData info.Object = .ret (d, none))
    (hre : o.CompliedRegex = some re) :
    (o.Run lib f = .ret ([], some (.errorString (lit "No secrets found"))) ↔
      ∀ info ∈ infos, o.match_ info.Namespace info.Name ≠ .ret true) ∧
    (¬ (∀ info ∈ infos, o.match_ info.Namespace info.Name ≠ .ret true) →
      ∃ secretdata, Options.Run.loop o infos [] = .ret (secretdata, none) ∧ secretdata ≠ [] ∧
        (o.Output = lit "json" →
          (∀ v, lib.MarshalIndent secretdata = .ok v →
            o.Run lib f = .ret (v ++ lit "\n", none)) ∧
          (∀ e, lib.MarshalIndent secretdata = .error e →
            o.Run lib f = .ret ([], some (.foreign e)))) ∧
        (o.Output = lit "yaml" →
          (∀ v, lib.Marshal secretdata = .ok v →
            o.Run lib f = .ret (v ++ lit "\n", none)) ∧
          (∀ e, lib.Marshal secretdata = .error e →
            o.Run lib f = .ret ([], some (.foreign e))))) := by
  have hm : ∀ info ∈ infos, ∃ b, o.match_ info.Namespace info.Name = .ret b :=
    fun info _ => match_of_CompliedRegex_some o re hre _ _
  have hrej : (∀ info ∈ infos, o.match_ info.Namespace info.Name ≠ .ret true) ↔
      ∀ info ∈ infos, o.match_ info.Namespace info.Name = .ret false := by
    constructor
    · intro h info hi
      obtain ⟨b, hb⟩ := hm info hi
      cases b with
      | false => exact hb
      | true => exact absurd hb (h info hi)
    · intro h info hi hc
      rw [h info hi] at hc
      cases hc
  obtain ⟨sd, hl, hiff⟩ := Run_loop_total o infos hm hdec []
  have hrun := Run_of_loop lib f o infos sd hf hl
  simp only [true_and] at hiff
  have hyj : lit "yaml" ≠ lit "json" := by decide
  refine ⟨⟨fun h => ?_, fun h => ?_⟩, ?_⟩
  · rw [hrej]
    by_cases hsd : sd = []
    · exact hiff.mp hsd
    · exfalso
      have hlen : ¬ sd.length = 0 := fun e => hsd (List.length_eq_zero.mp e)
      rw [hrun] at h
      simp only [hlen, if_false] at h
      split at h
      · split at h <;> simp at h
      · split at h
        · split at h <;> simp at h
        · simp at h
  · have hsd : sd = [] := hiff.mpr (hrej.mp h)
    rw [hrun, hsd]
    rfl
  · intro hpass
    have hsd : sd ≠ [] := fun e => hpass (hrej.mpr (hiff.mp e))
    have hlen : ¬ sd.length = 0 := fun e => hsd (List.length_eq_zero.mp e)
    refine ⟨sd, hl, hsd, ?_, ?_⟩
    · intro hj
      refine ⟨fun v hv => ?_, fun e he => ?_⟩
      · rw [hrun]
        simp only [hlen, if_false, hj, if_true, hv]
      · rw [hrun]
        simp only [hlen, if_false, hj, if_true, he]
    · intro hy
      refine ⟨fun v hv => ?_, fun e he => ?_⟩
      · rw [hrun]
        simp only [hlen, if_false, hy, hyj, if_true, hv]
      · rw [hrun]
        simp only [hlen, if_false, hy, hyj, if_true, he]

theorem Run_not_found_iff_witness :
    (Options.Run stubLib (stubFactory [testSecret1, testNoData]) testOptions =
        .ret ([], some (.errorString (lit "No secrets found"))) ↔
      ∀ info ∈ [testSecret1, testNoData],
        testOptions.match_ info.Namespace info.Name ≠ .ret true) ∧
    (¬ (∀ info ∈ [testSecret1, testNoData],
        testOptions.match_ info.Namespace info.Name ≠ .ret true) →
      ∃ secretdata,
        Options.Run.loop testOptions [testSecret1, testNoData] [] = .ret (secretdata, none) ∧
        secretdata ≠ [] ∧
        (testOptions.Output = lit "json" →
          (∀ v, stubLib.MarshalIndent secretdata = .ok v →
            Options.Run stubLib (stubFactory [testSecret1, testNoData]) testOptions =
              .ret (v ++ lit "\n", none)) ∧
          (∀ e, stubLib.MarshalIndent secretdata = .error e →
            Options.Run stubLib (stubFactory [testSecret1, testNoData]) testOptions =
              .ret ([], some (.foreign e)))) ∧
        (testOptions.Output = lit "yaml" →
          (∀ v, stubLib.Marshal secretdata = .ok v →
            Options.Run stubLib (stubFactory [testSecret1, testNoData]) testOptions =
              .ret (v ++ lit "\n", none)) ∧
          (∀ e, stubLib.Marshal secretdata = .error e →
            Options.Run stubLib (stubFactory [testSecret1, testNoData]) testOptions =
              .ret ([], some (.foreign e))))) :=
  Run_not_found_iff stubLib (stubFactory [testSecret1, testNoData]) testOptions
    [testSecret1, testNoData] (fun name => decide (name = lit "secret1")) rfl
    (fun info hi => by
      rcases List.mem_cons.mp hi with h | h
      · rw [h]; exact ⟨_, rfl⟩
      · rw [List.mem_singleton.mp h]; exact ⟨_, rfl⟩)
    rfl

/-- C7, counterexample: two options states for which the claim fails on the
one record `test1/secret1`, which decodes. With `Output` set to `xml` and a
pattern that matches every name, the record passes `match` and `Run` returns
no error, yet writes nothing. With a nil pattern, no record passes `match`
(the call does not return), yet `Run` does not fail with "No secrets found":
it panics. -/
theorem Run_needs_completed_options :
    (∃ d, getSecretData testSecret1.Object = .ret (d, none)) ∧
      Options.match_ { testOptions with Output := lit "xml", CompliedRegex := some (fun _ => true) }
        testSecret1.Namespace testSecret1.Name = .ret true ∧
      Options.Run stubLib (stubFactory [testSecret1])
        { testOptions with Output := lit "xml", CompliedRegex := some (fun _ => true) } =
        .ret ([], none) ∧
      Options.match_ { testOptions with CompliedRegex := none }
        testSecret1.Namespace testSecret1.Name ≠ .ret true ∧
      Options.Run stubLib (stubFactory [testSecret1]) { testOptions with CompliedRegex := none } =
        .panic :=
  ⟨⟨_, rfl⟩, by decide, by decide, by decide, by decide⟩

/-! ## `getSecretData`: absent data, decode failures -/

/-- C8, as the code has it: absent data is not an error in either record
shape. For an untyped record whose `data` is absent or null, `getSecretData`
returns a nil map and no error, which differs from the empty non-nil map it
returns for an untyped record whose `data` is a map without keys. -/
theorem getSecretData_no_data (Object Object' : GoMap Value)
    (habsent : Object.get (lit "data") = none ∨ Object.get (lit "data") = some .null)
    (hempty : Object'.get (lit "data") = some (.object [])) :
    getSecretData (.Unstructured Object) = .ret (none, none) ∧
      getSecretData (.Unstructured Object') = .ret (some [], none) ∧
      getSecretData (.Unstructured Object) ≠ getSecretData (.Unstructured Object') ∧
      ∃ d, getSecretData (.Secret none) = .ret (d, none) := by
  have h1 : getSecretData (.Unstructured Object) = .ret (none, none) := by
    rcases habsent with h | h <;> simp only [getSecretData, h]
  have h2 : getSecretData (.Unstructured Object') = .ret (some [], none) := by
    simp only [getSecretData, hempty, getSecretData.loop]
  refine ⟨h1, h2, ?_, ⟨_, rfl⟩⟩
  rw [h1, h2]
  simp

theorem getSecretData_no_data_witness :
    getSecretData testNoData.Object = .ret (none, none) ∧
      getSecretData (.Unstructured [(lit "data", .object [])]) = .ret (some [], none) ∧
      getSecretData testNoData.Object ≠
        getSecretData (.Unstructured [(lit "data", .object [])]) ∧
      ∃ d, getSecretData (.Secret none) = .ret (d, none) :=
  getSecretData_no_data [(lit "kind", .string (lit "Secret")), (lit "data", .null)]
    [(lit "data", .object [])] (Or.inr rfl) rfl

/-- C8, counterexample: for a typed Secret whose `Data` is nil,
`getSecretData` returns an empty map that is not nil, the same result as for
a typed Secret whose `Data` is a map without keys. -/
theorem getSecretData_typed_nil_data :
    getSecretData (.Secret none) = .ret (some [], none) ∧
      getSecretData (.Secret none) = getSecretData (.Secret (some [])) :=
  ⟨rfl, rfl⟩

theorem decodeLoop_err (len : Nat) (s : List Byte) :
    ∀ (si : Nat) (dbuf : List Nat) (out : List Byte) (e : GoError),
      (decodeLoop len s si dbuf out).2 = some e → ∃ n, e = .CorruptInputError n := by
  induction s with
  | nil =>
    intro si dbuf out e h
    simp only [decodeLoop] at h
    split at h
    · cases h
    · exact ⟨_, (Option.some.inj h).symm⟩
  | cons c rest ih =>
    intro si dbuf out e h
    simp only [decodeLoop] at h
    repeat' split at h
    all_goals first
      | exact ih _ _ _ _ h
      | exact ⟨_, (Option.some.inj h).symm⟩
      | (simp only [finishPadding] at h
         split at h
         · cases h
         · exact ⟨_, (Option.some.inj h).symm⟩)

theorem DecodeString_err (s : GoString) (e : GoError) (h : (DecodeString s).2 = some e) :
    ∃ n, e = .CorruptInputError n :=
  decodeLoop_err s.length s 0 [] [] e h

theorem getSecretData_loop_bad (m : GoMap GoString)
    (hbad : ∃ kv ∈ m, (DecodeString kv.2).2 ≠ none) :
    ∀ data : GoMap GoString, ∃ kv ∈ m, ∃ n,
      (DecodeString kv.2).2 = some (.CorruptInputError n) ∧
      getSecretData.loop (m.map fun kv => (kv.1, Value.string kv.2)) data =
        .ret (none, some (.wrapError
          (lit "decode " ++ kv.2 ++ lit ": " ++ (lit "illegal base64 data at input byte " ++ Itoa n))
          (.CorruptInputError n))) := by
  induction m with
  | nil =>
    obtain ⟨kv, hkv, -⟩ := hbad
    exact absurd hkv (List.not_mem_nil _)
  | cons kv0 m ih =>
    intro data
    obtain ⟨k, v⟩ := kv0
    cases hdec : DecodeString v with
    | mk b e =>
      cases e with
      | some e =>
        obtain ⟨n, hn⟩ := DecodeString_err v e (by rw [hdec])
        subst hn
        refine ⟨(k, v), List.mem_cons_self _ _, n, by rw [hdec], ?_⟩
        simp only [List.map_cons, getSecretData.loop, hdec, GoError.Error]
      | none =>
        have hbad' : ∃ kv ∈ m, (DecodeString kv.2).2 ≠ none := by
          obtain ⟨kv, hkv, hne⟩ := hbad
          rcases List.mem_cons.mp hkv with h | h
          · subst h
            rw [hdec] at hne
            exact absurd rfl hne
          · exact ⟨kv, h, hne⟩
        obtain ⟨kv, hkv, n, h1, h2⟩ := ih hbad' (data.set k b)
        refine ⟨kv, List.mem_cons_of_mem _ hkv, n, h1, ?_⟩
        simp only [List.map_cons, getSecretData.loop, hdec, h2]

/-- C9, as the code has it: for every untyped record whose `data` maps keys
to strings of which at least one is not valid standard base64,
`getSecretData` returns an error and a nil map, never a partial mapping. The
error wraps the `CorruptInputError` of one offending value `v`, and its
message is "decode `v`: illegal base64 data at input byte `n`": it names the
value and the offset, not the key. -/
theorem getSecretData_decode_failure (Object : GoMap Value) (m : GoMap GoString)
    (hdata : Object.get (lit "data") =
      some (.object (m.map fun kv => (kv.1, Value.string kv.2))))
    (hbad : ∃ kv ∈ m, (DecodeString kv.2).2 ≠ none) :
    ∃ kv ∈ m, ∃ n,
      (DecodeString kv.2).2 = some (.CorruptInputError n) ∧
      getSecretData (.Unstructured Object) =
        .ret (none, some (.wrapError
          (lit "decode " ++ kv.2 ++ lit ": " ++ (lit "illegal base64 data at input byte " ++ Itoa n))
          (.CorruptInputError n))) := by
  simp only [getSecretData, hdata]
  exact getSecretData_loop_bad m hbad []

theorem getSecretData_decode_failure_witness :
    ∃ kv ∈ [(lit "key1", lit "dmFsdWUx"), (lit "key2", lit "dmFs*WUy")], ∃ n,
      (DecodeString kv.2).2 = some (.CorruptInputError n) ∧
      getSecretData (.Unstructured
          [(lit "data", .object
            [(lit "key1", .string (lit "dmFsdWUx")), (lit "key2", .string (lit "dmFs*WUy"))])]) =
        .ret (none, some (.wrapError
          (lit "decode " ++ kv.2 ++ lit ": " ++ (lit "illegal base64 data at input byte " ++ Itoa n))
          (.CorruptInputError n))) :=
  getSecretData_decode_failure _ [(lit "key1", lit "dmFsdWUx"), (lit "key2", lit "dmFs*WUy")]
    rfl ⟨(lit "key2", lit "dmFs*WUy"), by decide, by decide⟩

/-- C9, counterexample: for the record whose `data` is `{"password": "!"}`,
the error message is "decode !: illegal base64 data at input byte 0"; the key
`password` does not occur in it, and the key `token` with the same value
gives the same error. When a value that is not a string is visited before
the invalid one, the call panics instead of returning an error. -/
theorem getSecretData_error_omits_key :
    getSecretData (.Unstructured [(lit "data", .object [(lit "password", .string (lit "!"))])]) =
        .ret (none, some (.wrapError (lit "decode !: illegal base64 data at input byte 0")
          (.CorruptInputError 0))) ∧
      ¬ (lit "password" <:+: lit "decode !: illegal base64 data at input byte 0") ∧
      getSecretData (.Unstructured [(lit "data", .object [(lit "token", .string (lit "!"))])]) =
        getSecretData
          (.Unstructured [(lit "data", .object [(lit "password", .string (lit "!"))])]) ∧
      getSecretData (.Unstructured
          [(lit "data", .object [(lit "count", .other), (lit "password", .string (lit "!"))])]) =
        .panic :=
  ⟨by decide, by decide, by decide, by decide⟩

/-! ## The result set of `Options.Run` -/

theorem entry_nil (ns name : GoString) : entry [] ns name = none := rfl

/-- The invariant of the loop of `Run`: what the entries of the final map are,
in terms of the map at the start and the records visited. -/
theorem Run_loop_entries (o : Options) (infos : List Info) :
    ∀ secretdata secretdata', Options.Run.loop o infos secretdata = .ret (secretdata', none) →
      (∀ ns name d, entry secretdata' ns name = some d →
        (entry secretdata ns name = some d ∧
          ∀ i ∈ infos, ¬ (i.Namespace = ns ∧ i.Name = name ∧ o.match_ ns name = .ret true)) ∨
        (∃ pre info post, infos = pre ++ info :: post ∧
          info.Namespace = ns ∧ info.Name = name ∧ o.match_ ns name = .ret true ∧
          (∀ i ∈ post, ¬ (i.Namespace = ns ∧ i.Name = name)) ∧
          getSecretData info.Object = .ret (d, none))) ∧
      (∀ ns name,
        ((∃ d, entry secretdata ns name = some d) ∨
          (∃ i ∈ infos, i.Namespace = ns ∧ i.Name = name ∧ o.match_ ns name = .ret true)) →
        ∃ d, entry secretdata' ns name = some d) ∧
      ((∀ ns inner, secretdata.get ns = some inner → inner ≠ []) →
        ∀ ns inner, secretdata'.get ns = some inner → inner ≠ []) := by
  induction infos with
  | nil =>
    intro sd sd' h
    simp only [Options.Run.loop, Go.ret.injEq, Prod.mk.injEq, and_true] at h
    subst h
    refine ⟨fun ns name d hd => Or.inl ⟨hd, fun i hi => absurd hi (List.not_mem_nil _)⟩, ?_,
      fun h => h⟩
    rintro ns name (h | ⟨i, hi, -⟩)
    · exact h
    · exact absurd hi (List.not_mem_nil _)
  | cons i rest ih =>
    intro sd sd' h
    cases hb : o.match_ i.Namespace i.Name with
    | panic => simp [Options.Run.loop, hb] at h
    | ret b =>
      cases b with
      | false =>
        rw [Run_loop_cons_skip o i rest sd hb] at h
        obtain ⟨h1, h2, h3⟩ := ih sd sd' h
        refine ⟨?_, ?_, h3⟩
        · intro ns name d hd
          rcases h1 ns name d hd with ⟨he, hno⟩ | ⟨pre, info, post, hsplit, hrest⟩
          · refine Or.inl ⟨he, fun j hj => ?_⟩
            rcases List.mem_cons.mp hj with e | hj'
            · subst e
              rintro ⟨e1, e2, e3⟩
              rw [← e1, ← e2, hb] at e3
              cases e3
            · exact hno j hj'
          · exact Or.inr ⟨i :: pre, info, post, by rw [hsplit]; rfl, hrest⟩
        · rintro ns name (hd | ⟨j, hj, e1, e2, e3⟩)
          · exact h2 ns name (Or.inl hd)
          · rcases List.mem_cons.mp hj with e | hj'
            · subst e
              rw [← e1, ← e2, hb] at e3
              cases e3
            · exact h2 ns name (Or.inr ⟨j, hj', e1, e2, e3⟩)
      | true =>
        cases hg : getSecretData i.Object with
        | panic => simp [Options.Run.loop, hb, hg] at h
        | ret r =>
          obtain ⟨d0, e0⟩ := r
          cases e0 with
          | some err => simp [Options.Run.loop, hb, hg] at h
          | none =>
            rw [Run_loop_cons_pass o i rest sd d0 hb hg] at h
            obtain ⟨h1, h2, h3⟩ := ih _ sd' h
            refine ⟨?_, ?_, fun hinv => h3 (insertSecret_inner_ne_nil sd _ _ d0 hinv)⟩
            · intro ns name d hd
              rcases h1 ns name d hd with ⟨he, hno⟩ | ⟨pre, info, post, hsplit, hrest⟩
              · rw [entry_insertSecret] at he
                by_cases hk : i.Namespace = ns ∧ i.Name = name
                · simp only [hk, and_self, if_true, Option.some.injEq] at he
                  subst he
                  have hpass : o.match_ ns name = .ret true := by
                    rw [← hk.1, ← hk.2]; exact hb
                  refine Or.inr ⟨[], i, rest, rfl, hk.1, hk.2, hpass, ?_, hg⟩
                  intro j hj hjk
                  exact hno j hj ⟨hjk.1, hjk.2, hpass⟩
                · simp only [hk, if_false] at he
                  refine Or.inl ⟨he, fun j hj => ?_⟩
                  rcases List.mem_cons.mp hj with e | hj'
                  · subst e
                    exact fun hc => hk ⟨hc.1, hc.2.1⟩
                  · exact hno j hj'
              · exact Or.inr ⟨i :: pre, info, post, by rw [hsplit]; rfl, hrest⟩
            · rintro ns name (⟨d, hd⟩ | ⟨j, hj, e1, e2, e3⟩)
              · apply h2 ns name
                left
                rw [entry_insertSecret]
                by_cases hk : i.Namespace = ns ∧ i.Name = name
                · exact ⟨d0, by simp only [hk, and_self, if_true]⟩
                · exact ⟨d, by simp only [hk, if_false, hd]⟩
              · rcases List.mem_cons.mp hj with e | hj'
                · subst e
                  apply h2 ns name
                  left
                  rw [entry_insertSecret]
                  exact ⟨d0, by simp only [e1, e2, and_self, if_true]⟩
                · exact h2 ns name (Or.inr ⟨j, hj', e1, e2, e3⟩)

/-- C10: the result set of `Run`. Whenever `Run` returns no error on the
fetched records `infos`, its loop has built a mapping `secretdata`, not empty,
that is what `Run` renders (for `Output` `json` or `yaml` the output is the
marshaller's text for `secretdata` and a newline), and: `secretdata` has an
entry at `[ns][name]` if and only if a fetched record with that namespace
and name passes `match`; the value of an entry is the `getSecretData`
decoding of the last fetched record with that namespace and name; no
namespace maps to an empty inner mapping. -/
theorem Run_result_set (lib : Lib) (f : Factory) (o : Options) (infos : List Info)
    (out : GoString) (hf : o.secretInfos f = .ok infos)
    (hrun : o.Run lib f = .ret (out, none)) :
    ∃ secretdata : SecretDataMap,
      Options.Run.loop o infos [] = .ret (secretdata, none) ∧ secretdata ≠ [] ∧
      (o.Output = lit "json" → ∃ v, lib.MarshalIndent secretdata = .ok v ∧ out = v ++ lit "\n") ∧
      (o.Output = lit "yaml" → ∃ v, lib.Marshal secretdata = .ok v ∧ out = v ++ lit "\n") ∧
      (∀ ns name, (∃ d, entry secretdata ns name = some d) ↔
        ∃ i ∈ infos, i.Namespace = ns ∧ i.Name = name ∧ o.match_ ns name = .ret true) ∧
      (∀ ns name d, entry secretdata ns name = some d →
        ∃ pre info post, infos = pre ++ info :: post ∧
          info.Namespace = ns ∧ info.Name = name ∧
          (∀ i ∈ post, ¬ (i.Namespace = ns ∧ i.Name = name)) ∧
          getSecretData info.Object = .ret (d, none)) ∧
      (∀ ns inner, secretdata.get ns = some inner → inner ≠ []) := by
  cases hl : Options.Run.loop o infos [] with
  | panic => simp [Options.Run, hf, hl] at hrun
  | ret r =>
    obtain ⟨sd, e⟩ := r
    cases e with
    | some err => simp [Options.Run, hf, hl] at hrun
    | none =>
      rw [Run_of_loop lib f o infos sd hf hl] at hrun
      have hlen : ¬ sd.length = 0 := by
        intro e
        simp [e] at hrun
      have hsd : sd ≠ [] := fun e => hlen (by rw [e]; rfl)
      have hyj : lit "yaml" ≠ lit "json" := by decide
      obtain ⟨h1, h2, h3⟩ := Run_loop_entries o infos [] sd hl
      refine ⟨sd, rfl, hsd, ?_, ?_, ?_, ?_, ?_⟩
      · intro hj
        simp only [hlen, if_false, hj, if_true] at hrun
        cases hv : lib.MarshalIndent sd with
        | error err => simp [hv] at hrun
        | ok v =>
          simp only [hv, Go.ret.injEq, Prod.mk.injEq, and_true] at hrun
          exact ⟨v, rfl, hrun.symm⟩
      · intro hy
        simp only [hlen, if_false, hy, hyj, if_true] at hrun
        cases hv : lib.Marshal sd with
        | error err => simp [hv] at hrun
        | ok v =>
          simp only [hv, Go.ret.injEq, Prod.mk.injEq, and_true] at hrun
          exact ⟨v, rfl, hrun.symm⟩
      · intro ns name
        constructor
        · rintro ⟨d, hd⟩
          rcases h1 ns name d hd with ⟨he, -⟩ | ⟨pre, info, post, hsplit, e1, e2, e3, -⟩
          · rw [entry_nil] at he
            cases he
          · exact ⟨info, by rw [hsplit]; simp, e1, e2, e3⟩
        · intro h
          exact h2 ns name (Or.inr h)
      · intro ns name d hd
        rcases h1 ns name d hd with ⟨he, -⟩ | ⟨pre, info, post, hsplit, e1, e2, -, e4, e5⟩
        · rw [entry_nil] at he
          cases he
        · exact ⟨pre, info, post, hsplit, e1, e2, e4, e5⟩
      · exact h3 (fun ns inner h => by cases h)

theorem Run_result_set_witness :
    ∃ secretdata : SecretDataMap,
      Options.Run.loop { testOptions with CompliedRegex := some (fun _ => true) }
        [testSecret1, testNoData, testSecret1] [] = .ret (secretdata, none) ∧
      secretdata ≠ [] ∧
      (({ testOptions with CompliedRegex := some (fun _ => true) } : Options).Output = lit "json" →
        ∃ v, stubLib.MarshalIndent secretdata = .ok v ∧ lit "<json>\n" = v ++ lit "\n") ∧
      (({ testOptions with CompliedRegex := some (fun _ => true) } : Options).Output = lit "yaml" →
        ∃ v, stubLib.Marshal secretdata = .ok v ∧ lit "<json>\n" = v ++ lit "\n") ∧
      (∀ ns name, (∃ d, entry secretdata ns name = some d) ↔
        ∃ i ∈ [testSecret1, testNoData, testSecret1], i.Namespace = ns ∧ i.Name = name ∧
          Options.match_ { testOptions with CompliedRegex := some (fun _ => true) } ns name =
            .ret true) ∧
      (∀ ns name d, entry secretdata ns name = some d →
        ∃ pre info post, [testSecret1, testNoData, testSecret1] = pre ++ info :: post ∧
          info.Namespace = ns ∧ info.Name = name ∧
          (∀ i ∈ post, ¬ (i.Namespace = ns ∧ i.Name = name)) ∧
          getSecretData info.Object = .ret (d, none)) ∧
      (∀ ns inner, secretdata.get ns = some inner → inner ≠ []) :=
  Run_result_set stubLib (stubFactory [testSecret1, testNoData, testSecret1])
    { testOptions with CompliedRegex := some (fun _ => true) }
    [testSecret1, testNoData, testSecret1] (lit "<json>\n") rfl (by decide)

/-! ## `Options.Complete`: the namespace of the environment -/

/-- C11: a default namespace that is not explicit is discarded. For every
namespace `dflt` that the environment supplies as not explicitly set,
`Complete` returns the same options and the same error as when the
environment supplies no namespace at all (explicit or not). Given neither the
all-namespaces flag nor a multi-namespace string it fails with "must select at
least a namespace"; given the all-namespaces flag alone (with an `Output` of
`json` or `yaml` and a `Regex` that compiles, as the defaults are) it succeeds
and leaves `Namespace` empty and `AllNamespaces` true. -/
theorem Complete_discards_default_namespace (lib : Lib)
    (Do : Query → Except GoString (List Info)) (args : List GoString) (o : Options)
    (dflt : GoString) :
    (∀ explicit, Options.Complete lib ⟨(dflt, false, none), Do⟩ args o =
      Options.Complete lib ⟨([], explicit, none), Do⟩ args o) ∧
    (Options.Complete lib ⟨(dflt, false, none), Do⟩ args
        { o with AllNamespaces := false, MultiNamespacesString := [] }).2 =
      some (.errorString (lit "must select at least a namespace")) ∧
    (∀ re, (o.Output = lit "json" ∨ o.Output = lit "yaml") → lib.Compile o.Regex = .ok re →
      (Options.Complete lib ⟨(dflt, false, none), Do⟩ args
        { o with AllNamespaces := true, MultiNamespacesString := [], MultiNamespaces := [] }).2 =
          none ∧
      (Options.Complete lib ⟨(dflt, false, none), Do⟩ args
        { o with AllNamespaces := true, MultiNamespacesString := [], MultiNamespaces := [] }).1.Namespace =
          [] ∧
      (Options.Complete lib ⟨(dflt, false, none), Do⟩ args
        { o with AllNamespaces := true, MultiNamespacesString := [], MultiNamespaces := [] }).1.AllNamespaces =
          true) := by
  obtain ⟨ons, all, ms, output, sel, regex, sname, cre, mn⟩ := o
  refine ⟨?_, ?_, ?_⟩
  · intro explicit
    cases explicit <;>
      simp only [Options.Complete, Bool.not_false, Bool.not_true, if_true, if_false,
        Bool.false_eq_true]
  · simp only [Options.Complete, nTrue_three, Bool.not_false, if_true, ne_eq, not_true_eq_false,
      decide_False, Bool.false_eq_true, if_false, Nat.add_zero]
    rfl
  · intro re hout hre
    have hnot : ¬ (¬ output = lit "json" ∧ ¬ output = lit "yaml") := by
      simp only at hout
      rcases hout with h | h
      · exact fun hc => hc.1 h
      · exact fun hc => hc.2 h
    simp only at hre
    simp only [Options.Complete, nTrue_three, Bool.not_false, if_true, ne_eq, not_true_eq_false,
      decide_False, Bool.false_eq_true, if_false, Nat.add_zero, Nat.zero_add, one_ne_zero,
      Nat.reduceEqDiff, OfNat.one_ne_ofNat, or_self, List.length_nil, Nat.not_lt_zero,
      OfNat.zero_ne_ofNat, zero_ne_one, hnot, hre, and_self]

theorem Complete_discards_default_namespace_witness :
    (Options.Complete stubLib (stubFactory []) []
        { NewOptions with
          AllNamespaces := true
          MultiNamespacesString := []
          MultiNamespaces := [] }).2 = none ∧
    (Options.Complete stubLib (stubFactory []) []
        { NewOptions with
          AllNamespaces := true
          MultiNamespacesString := []
          MultiNamespaces := [] }).1.Namespace = [] ∧
    (Options.Complete stubLib (stubFactory []) []
        { NewOptions with
          AllNamespaces := true
          MultiNamespacesString := []
          MultiNamespaces := [] }).1.AllNamespaces = true :=
  (Complete_discards_default_namespace stubLib (fun _ => .ok []) [] NewOptions
    (lit "default")).2.2 (fun _ => true) (Or.inr rfl) rfl

/-! ## `secretCommands` -/

theorem foldl_append_Name (namespaces : List v1.Namespace) :
    ∀ ns : List GoString,
      namespaces.foldl (fun ns n => ns ++ [n.Name]) ns = ns ++ namespaces.map (fun n => n.Name) := by
  induction namespaces with
  | nil => intro ns; simp
  | cons n namespaces ih =>
    intro ns
    simp only [List.foldl_cons, ih, List.map_cons, List.append_assoc, List.singleton_append]

/-- With no secret name, no single namespace, no multi-namespace list and
all-namespaces set, `secretCommands` builds a command for the empty single
namespace, then one for each listed namespace in listing order: one command
more than namespaces listed. -/
theorem secretCommands_all_namespaces (env : GoString) (sh : Shell) (opt : options)
    (namespaces : List v1.Namespace) (h : getAllNamespaces env sh = .ok namespaces) :
    secretCommands env sh []
        { opt with Namespace := [], AllNamespaces := true, MultiNamespaces := [] } =
      .ok (kubectlGetSecret env ([lit "-n", []] ++ opt.toKubectlOptions) ::
        namespaces.map fun n => kubectlGetSecret env ([lit "-n", n.Name] ++ opt.toKubectlOptions)) ∧
    ((kubectlGetSecret env ([lit "-n", []] ++ opt.toKubectlOptions) ::
        namespaces.map fun n =>
          kubectlGetSecret env ([lit "-n", n.Name] ++ opt.toKubectlOptions)).length =
      namespaces.length + 1) := by
  refine ⟨?_, by simp⟩
  have ho : options.toKubectlOptions
      { opt with Namespace := [], AllNamespaces := true, MultiNamespaces := [] } =
      opt.toKubectlOptions := rfl
  simp only [secretCommands, ne_eq, not_true_eq_false, false_and, if_false, if_true, h,
    foldl_append_Name, List.length_nil, ho, List.singleton_append, List.map_cons, List.map_map]
  rfl

/-- C12, evaluated on the code: with output `yaml`, all-namespaces set,
nothing else given and the namespace listing returning `default` and
`kube-system`, `secretCommands` builds three commands, not two: the first is
`kubectl get secret -n "" -o yaml`, for the empty single namespace that seeds
the list, and the two listed namespaces follow in order. -/
theorem secretCommands_builds_extra_command :
    secretCommands []
        ⟨fun _ => .ok [], fun _ => .ok [⟨lit "default"⟩, ⟨lit "kube-system"⟩]⟩ []
        { newOptions with AllNamespaces := true } =
      .ok
        [⟨lit "kubectl", [lit "get", lit "secret", lit "-n", [], lit "-o", lit "yaml"]⟩,
         ⟨lit "kubectl", [lit "get", lit "secret", lit "-n", lit "default", lit "-o", lit "yaml"]⟩,
         ⟨lit "kubectl",
           [lit "get", lit "secret", lit "-n", lit "kube-system", lit "-o", lit "yaml"]⟩] :=
  (secretCommands_all_namespaces []
    ⟨fun _ => .ok [], fun _ => .ok [⟨lit "default"⟩, ⟨lit "kube-system"⟩]⟩ newOptions
    [⟨lit "default"⟩, ⟨lit "kube-system"⟩] rfl).1

end SecretData
